import Mathlib

/-
Verification of the collver compiler front end (src/collver.py) against its
natural-language specification.

The Python source is shallowly embedded: every dataclass becomes a Lean
structure, every enum an inductive type, and every function a computable Lean
definition that mirrors the Python control flow.  Python lists that are used
as stacks (append / pop at the end) are represented by Lean lists in the same
order: `append x` is `l ++ [x]` and `pop` is `getLast?` / `dropLast`.
Python dicts are represented by association lists in insertion order, with
`dictFind` the key lookup and `dictInsert` the in-place overwriting update.

Fallible code is embedded with the `Res` result type below:
`Res.ok diags v` models a normal return after printing the diagnostics
`diags`, `Res.exit diags` models `compiler_error`/... followed by
`sys.exit(1)`, and `Res.crash diags` models a failing Python `assert` or an
uncaught exception (IndexError on `list.pop` of an empty list).  Diagnostics
are recorded by severity only (`error` / `warning` / `note`): the message
texts and locations printed by `compiler_error`, `compiler_warning` and
`compiler_note` are elided, since all claims under study only depend on the
presence and severity of diagnostics.
-/

namespace Collver

/-- Severity of an emitted diagnostic (compiler_error / compiler_warning /
compiler_note in the source). -/
inductive Sev where
  | err
  | warn
  | note
deriving DecidableEq, Repr

/-- Result of running a piece of the (exception- and exit-using) Python
front end: `ok` is a normal return, `exit` models `sys.exit(1)`, `crash`
models a failing `assert` or an uncaught exception.  Each carries the
diagnostics printed before the function finished. -/
inductive Res (α : Type) where
  | ok (diags : List Sev) (val : α)
  | exit (diags : List Sev)
  | crash (diags : List Sev)
deriving DecidableEq, Repr

/-- Token type (class TT in the source). -/
inductive TT where
  | INT
  | STRING
  | WORD
deriving DecidableEq, Repr

/-- The `value` field of a Token is `str | int` in Python. -/
inductive TokVal where
  | int (n : Int)
  | str (s : String)
deriving DecidableEq, Repr

/-- Python's `str(value)` on a token value (used where the source converts
with `str(...)` before a dict access). -/
def tokValStr : TokVal → String
  | .int n => toString n
  | .str s => s

/-- A lexed token (dataclass Token in the source). -/
structure Token where
  typ : TT
  value : TokVal
  file : String
  row : Nat
  col : Nat
deriving DecidableEq, Repr

/-- Operation types of words (class OT in the source). -/
inductive OT where
  | PUSH_INT
  | PUSH_STR
  | KEYWORD
  | DATA_TYPE
  | MEMORY_NAME
  | PUSH_MEMORY
  | PROC_NAME
  | PROC_CALL
  | INTRINSIC
deriving DecidableEq, Repr

/-- All constructors of OT, in source order; its length is what the Python
`len(OT)` computes. -/
def allOT : List OT :=
  [.PUSH_INT, .PUSH_STR, .KEYWORD, .DATA_TYPE, .MEMORY_NAME, .PUSH_MEMORY,
   .PROC_NAME, .PROC_CALL, .INTRINSIC]

/-- Keywords (class Keyword in the source).  `EXTERNKW` embeds the source's
`EXTERN` member (renamed only because of local identifier conventions). -/
inductive Keyword where
  | MEMORY
  | PROC
  | EXTERNKW
  | ARROW
  | IF
  | ELIF
  | WHILE
  | DO
  | ELSE
  | END
deriving DecidableEq, Repr

/-- All constructors of Keyword, in source order; its length is the Python
`len(Keyword)`. -/
def allKeyword : List Keyword :=
  [.MEMORY, .PROC, .EXTERNKW, .ARROW, .IF, .ELIF, .WHILE, .DO, .ELSE, .END]

/-- Data types in collver (class DT in the source). -/
inductive DT where
  | INT
  | STR
  | PTR
  | UNK
deriving DecidableEq, Repr

/-- A stack entry of the type checker: `TypeAnnotation = tuple[DT, Token]`
in the source. -/
abbrev TypeAnn := DT × Token

/-- The operand of a Word: `Optional[int | str | Keyword | DT]`. -/
inductive Operand where
  | none
  | int (n : Int)
  | str (s : String)
  | kw (k : Keyword)
  | dt (d : DT)
deriving DecidableEq, Repr

/-- A word (instruction); dataclass Word in the source. -/
structure Word where
  typ : OT
  operand : Operand
  tok : Token
  jmp : Option Nat
deriving DecidableEq, Repr

/-- A procedure type signature (dataclass ProcTypeSig in the source). -/
structure ProcTypeSig where
  args : List TypeAnn
  returns : List TypeAnn
  arrow_tok : Token
deriving DecidableEq, Repr

/-- A procedure (dataclass Proc in the source). -/
structure Proc where
  proc_tok : Token
  memories : List (String × Int)
  type_sig : ProcTypeSig
  strings : List (Nat × String)
  words : List Word
deriving DecidableEq, Repr

/-- A program in intermediate representation (dataclass Program). -/
structure Program where
  file_path : String
  procs : List (String × Proc)
  externs : List (String × List ProcTypeSig)
  memories : List (String × Int)
deriving DecidableEq, Repr

/-- Lookup in an insertion-ordered association list (Python `d[k]` /
`k in d`). -/
def dictFind {α : Type} (d : List (String × α)) (k : String) : Option α :=
  match d with
  | [] => Option.none
  | (k', v) :: rest => if k' = k then some v else dictFind rest k

/-- Overwriting insert in an insertion-ordered association list
(Python `d[k] = v`): an existing key keeps its position, a new key is
appended at the end. -/
def dictInsert {α : Type} (d : List (String × α)) (k : String) (v : α) :
    List (String × α) :=
  match d with
  | [] => [(k, v)]
  | (k', v') :: rest =>
      if k' = k then (k, v) :: rest else (k', v') :: dictInsert rest k v

/-! ## Lexer (lex_line, lex_file) -/

/-- The loop state of `lex_line`: the pending buffer, the column at which it
started, whether we are inside a string literal, and the chunks emitted so
far. -/
structure LexLineState where
  buffer : List Char
  start_idx : Nat
  in_str : Bool
  chunks : List (Nat × List Char)
deriving DecidableEq, Repr

/-- The `for idx, c in enumerate(line)` loop of `lex_line`.  The `//`
comment case executes Python's `break`, which is modeled by returning the
state without consuming the rest of the line. -/
def lexLineGo : Nat → List Char → LexLineState → LexLineState
  | _, [], st => st
  | idx, c :: cs, st =>
      if st.in_str then
        if c = '"' then
          lexLineGo (idx + 1) cs
            { buffer := [], start_idx := st.start_idx, in_str := false,
              chunks := st.chunks ++ [(st.start_idx, st.buffer ++ [c])] }
        else if st.buffer.getLast? = some '\\' ∧ c = 'n' then
          lexLineGo (idx + 1) cs { st with buffer := st.buffer ++ ['0', 'A'] }
        else if st.buffer.getLast? = some '\\' ∧ c = 'r' then
          lexLineGo (idx + 1) cs { st with buffer := st.buffer ++ ['0', 'D'] }
        else
          lexLineGo (idx + 1) cs { st with buffer := st.buffer ++ [c] }
      else
        if c = ' ' ∨ c = '\n' then
          if st.buffer ≠ [] then
            lexLineGo (idx + 1) cs
              { st with buffer := [],
                        chunks := st.chunks ++ [(st.start_idx, st.buffer)] }
          else
            lexLineGo (idx + 1) cs st
        else if c = '"' then
          if st.buffer = [] then
            lexLineGo (idx + 1) cs
              { st with buffer := [c], start_idx := idx, in_str := true }
          else
            lexLineGo (idx + 1) cs st
        else if c = '/' ∧ st.buffer = ['/'] then
          { st with buffer := [] }
        else
          if st.buffer = [] then
            lexLineGo (idx + 1) cs
              { st with buffer := [c], start_idx := idx }
          else
            lexLineGo (idx + 1) cs { st with buffer := st.buffer ++ [c] }

/-- `lex_line`: lex one line into `(column, text)` chunks.  The trailing
`if len(buffer) != 0` flush of the source is the final append. -/
def lex_line (line : List Char) : List (Nat × List Char) :=
  let st := lexLineGo 0 line ⟨[], 0, false, []⟩
  st.chunks ++ (if st.buffer ≠ [] then [(st.start_idx, st.buffer)] else [])

/-- Decimal digit test. -/
def isDig (c : Char) : Bool := '0' ≤ c ∧ c ≤ '9'

/-- Value of a list of decimal digits. -/
def digitsVal (cs : List Char) : Nat :=
  cs.foldl (fun acc c => acc * 10 + (c.toNat - '0'.toNat)) 0

/-- Python's `int(string)` on the chunks produced by `lex_line`: an optional
sign followed by at least one decimal digit, `none` on `ValueError`.
(Python's `int` also strips whitespace and allows `_` separators; chunks
reaching this either contain no whitespace or begin with `"`, and no claim
involves underscore literals, so those cases are not modeled.) -/
def pyParseInt (cs : List Char) : Option Int :=
  match cs with
  | '-' :: rest =>
      if rest ≠ [] ∧ rest.all isDig then some (-(digitsVal rest : Int))
      else Option.none
  | '+' :: rest =>
      if rest ≠ [] ∧ rest.all isDig then some (digitsVal rest : Int)
      else Option.none
  | _ =>
      if cs ≠ [] ∧ cs.all isDig then some (digitsVal cs : Int)
      else Option.none

/-- Classification of one chunk into a Token (the body of the inner loop of
`lex_file`): an integer literal, a quote-delimited string (quotes stripped),
or a bare word. -/
def tokenOfChunk (file : String) (row col : Nat) (chunk : List Char) :
    Token :=
  match pyParseInt chunk with
  | some n => ⟨TT.INT, .int n, file, row, col⟩
  | Option.none =>
      if chunk.head? = some '"' ∧ chunk.getLast? = some '"' then
        ⟨TT.STRING, .str (String.mk (chunk.drop 1).dropLast), file, row, col⟩
      else
        ⟨TT.WORD, .str (String.mk chunk), file, row, col⟩

/-- `lex_file`, with the file contents (the `readlines()` result) passed in
as a list of lines.  The source's only failure mode is an unreadable file,
which is outside this model: given its lines, lexing always succeeds and
prints no diagnostics. -/
def lex_file (file_path : String) (lines : List (List Char)) : List Token :=
  (lines.enum.map
      (fun rl =>
        (lex_line rl.2).map (fun cs => tokenOfChunk file_path rl.1 cs.1 cs.2))).flatten

/-! ## Preprocessor: include expansion (preprocess_includes)

File system access is abstracted by a finite association list `fs` from the
path string of an `include` to the lexed token list of the resolved file.
Resolution relative to the CWD with fallback to the bundled `std/` directory
is a single lookup here (a path missing from `fs` is one for which both
opens raise FileNotFoundError, which the source turns into an error exit).
-/

/-- One scan of the token list (the `while len(rtokens)` loop of
`preprocess_includes`).  Returns the rewritten tokens together with the
updated `included_files` list.  A pair whose path was already included is
dropped (`continue` in the source); an expanded path is appended to
`included_files` before its tokens are spliced in. -/
def includePass (fs : List (String × List Token)) :
    List Token → List String → List Token → Res (List Token × List String)
  | [], incl, acc => .ok [] (acc, incl)
  | tok :: rest, incl, acc =>
      if tok.typ = TT.WORD ∧ tok.value = .str "include" then
        match rest with
        | [] => .exit [.err]
        | fileTok :: rest2 =>
            if fileTok.typ = TT.STRING then
              let srcPath := tokValStr fileTok.value
              if incl.contains srcPath then
                includePass fs rest2 incl acc
              else
                match dictFind fs srcPath with
                | some toks =>
                    includePass fs rest2 (incl ++ [srcPath]) (acc ++ toks)
                | Option.none => .exit [.err]
            else .exit [.err]
      else includePass fs rest incl (acc ++ [tok])

/-- The recursion of `preprocess_includes`: after a pass, if the token list
grew, the function calls itself on the result (sharing the mutated
`included_files`).  Each growing pass records at least one path of `fs` that
was not in `included_files` before and is never expanded again, so the
recursion depth is bounded by the number of entries of `fs`; the fuel used
below is therefore never exhausted on the recursions the source performs,
and the fuel-0 branch is unreachable from `preprocess_includes`. -/
def preprocessIncludesFuel (fs : List (String × List Token)) :
    Nat → List Token → List String → Res (List Token)
  | 0, tokens, _ => .ok [] tokens
  | fuel + 1, tokens, incl =>
      match includePass fs tokens incl [] with
      | .ok d (newTokens, newIncl) =>
          if tokens.length < newTokens.length then
            match preprocessIncludesFuel fs fuel newTokens newIncl with
            | .ok d2 res => .ok (d ++ d2) res
            | .exit d2 => .exit (d ++ d2)
            | .crash d2 => .crash (d ++ d2)
          else .ok d newTokens
      | .exit d => .exit d
      | .crash d => .crash d

/-- `preprocess_includes(tokens, included_files)` over the abstract file
system `fs`. -/
def preprocess_includes (fs : List (String × List Token))
    (tokens : List Token) (included_files : List String) :
    Res (List Token) :=
  preprocessIncludesFuel fs (fs.length + 1) tokens included_files

/-! ## Preprocessor: const extraction and substitution -/

/-- Pop the top (= last) element of a Python list used as a stack. -/
def popLast? {α : Type} (l : List α) : Option (α × List α) :=
  match l.getLast? with
  | some a => some (a, l.dropLast)
  | Option.none => Option.none

/-- Pop two elements (`a = pop(); b = pop()`). -/
def popLast2? {α : Type} (l : List α) : Option (α × α × List α) :=
  match popLast? l with
  | some (a, l1) =>
      match popLast? l1 with
      | some (b, l2) => some (a, b, l2)
      | Option.none => Option.none
  | Option.none => Option.none

/-- `body_tok.value in consts` in Python: only a string value can be a key
of the (string-keyed) consts dict. -/
def constLookup (consts : List (String × Int)) (v : TokVal) : Option Int :=
  match v with
  | .str s => dictFind consts s
  | .int _ => Option.none

/-- The body loop of a `const ... end` definition in `extract_consts`:
consumes tokens until the closing `end`, evaluating the tiny RPN machine.
Returns the final value stack, the updated global offset counter and the
tokens remaining after `end`.  Running out of tokens without an `end` is the
source's EOF error exit; a pop from an empty value stack is Python's
IndexError, i.e. a crash (as is `int()` of a non-numeric string, which no
lexer-produced INT token can carry). -/
def constBodyLoop (consts : List (String × Int)) :
    List Token → List Int → Int → Res (List Int × Int × List Token)
  | [], _, _ => .exit [.err]
  | tok :: rest, stack, off =>
      if tok.typ = TT.WORD ∧ tok.value = .str "end" then
        .ok [] (stack, off, rest)
      else if tok.typ = TT.WORD ∧ (constLookup consts tok.value).isSome then
        constBodyLoop consts rest
          (stack ++ [(constLookup consts tok.value).getD 0]) off
      else if tok.typ = TT.INT then
        match tok.value with
        | .int n => constBodyLoop consts rest (stack ++ [n]) off
        | .str _ => .crash []
      else if tok.typ = TT.WORD ∧ tok.value = .str "+" then
        match popLast2? stack with
        | some (a, b, s) => constBodyLoop consts rest (s ++ [a + b]) off
        | Option.none => .crash []
      else if tok.typ = TT.WORD ∧ tok.value = .str "-" then
        match popLast2? stack with
        | some (a, b, s) => constBodyLoop consts rest (s ++ [b - a]) off
        | Option.none => .crash []
      else if tok.typ = TT.WORD ∧ tok.value = .str "*" then
        match popLast2? stack with
        | some (a, b, s) => constBodyLoop consts rest (s ++ [a * b]) off
        | Option.none => .crash []
      else if tok.typ = TT.WORD ∧ tok.value = .str "offset" then
        match popLast? stack with
        | some (a, s) => constBodyLoop consts rest (s ++ [off]) (off + a)
        | Option.none => .crash []
      else if tok.typ = TT.WORD ∧ tok.value = .str "reset" then
        constBodyLoop consts rest (stack ++ [off]) 0
      else .exit [.err]

/-- The tokens remaining after a successful const body are strictly fewer
than one more than the input tokens (the loop only consumes); this bounds
the recursion of `extractConstsLoop`. -/
theorem constBodyLoop_rem_le (consts : List (String × Int)) :
    ∀ (toks : List Token) (stack : List Int) (off : Int)
      (d : List Sev) (st : List Int) (off' : Int) (rem : List Token),
      constBodyLoop consts toks stack off = .ok d (st, off', rem) →
      rem.length < toks.length + 1 := by
  intro toks
  induction toks with
  | nil => intro _ _ _ _ _ _ h; simp [constBodyLoop] at h
  | cons tok rest ih =>
      intro stack off d st off' rem h
      simp only [constBodyLoop] at h
      split at h
      · injection h with hd hv
        simp only [Prod.mk.injEq] at hv
        obtain ⟨-, -, rfl⟩ := hv
        simp
        omega
      · split at h
        · exact Nat.lt_succ_of_lt (ih _ _ _ _ _ _ h)
        · split at h
          · split at h
            · exact Nat.lt_succ_of_lt (ih _ _ _ _ _ _ h)
            · cases h
          · split at h
            · split at h
              · exact Nat.lt_succ_of_lt (ih _ _ _ _ _ _ h)
              · cases h
            · split at h
              · split at h
                · exact Nat.lt_succ_of_lt (ih _ _ _ _ _ _ h)
                · cases h
              · split at h
                · split at h
                  · exact Nat.lt_succ_of_lt (ih _ _ _ _ _ _ h)
                  · cases h
                · split at h
                  · split at h
                    · exact Nat.lt_succ_of_lt (ih _ _ _ _ _ _ h)
                    · cases h
                  · split at h
                    · exact Nat.lt_succ_of_lt (ih _ _ _ _ _ _ h)
                    · cases h


/-- The main loop of `extract_consts`: removes `const NAME <body> end`
blocks (evaluating each body), collects the defined consts, copies every
other token through.  The global `offset` counter is threaded across
blocks.  Malformed definitions (missing name, non-word name, body that does
not evaluate to exactly one value) are error exits. -/
def extractConstsLoop :
    List Token → List (String × Int) → List Token → Int →
    Res (List (String × Int) × List Token)
  | [], consts, acc, _ => .ok [] (consts, acc)
  | tok :: rest, consts, acc, off =>
      if tok.typ = TT.WORD ∧ tok.value = .str "const" then
        match rest with
        | [] => .exit [.err]
        | nameTok :: rest2 =>
            if nameTok.typ = TT.WORD then
              match hbody : constBodyLoop consts rest2 [] off with
              | .ok _ (stack, off', rem) =>
                  if stack.length > 1 then .exit [.err]
                  else
                    match stack with
                    | [] => .exit [.err]
                    | v :: _ =>
                        extractConstsLoop rem
                          (dictInsert consts (tokValStr nameTok.value) v)
                          acc off'
              | .exit d => .exit d
              | .crash d => .crash d
            else .exit [.err]
      else extractConstsLoop rest consts (acc ++ [tok]) off
termination_by toks _ _ _ => toks.length
decreasing_by
  · exact Nat.lt_succ_of_lt (constBodyLoop_rem_le _ _ _ _ _ _ _ _ hbody)
  · simp

/-- `extract_consts(tokens)`. -/
def extract_consts (tokens : List Token) :
    Res (List (String × Int) × List Token) :=
  extractConstsLoop tokens [] [] 0

/-- `replace_consts(consts, tokens)`: WORD tokens whose text is a defined
const name become INT tokens with the const's value at the reference site's
location. -/
def replace_consts (consts : List (String × Int)) :
    List Token → List Token
  | [] => []
  | tok :: rest =>
      match tok.typ, tok.value with
      | TT.WORD, .str s =>
          match dictFind consts s with
          | some v =>
              ⟨TT.INT, .int v, tok.file, tok.row, tok.col⟩ ::
                replace_consts consts rest
          | Option.none => tok :: replace_consts consts rest
      | _, _ => tok :: replace_consts consts rest

/-- `preprocess_consts(tokens)` = extract then replace. -/
def preprocess_consts (tokens : List Token) : Res (List Token) :=
  match extract_consts tokens with
  | .ok d (consts, toks) => .ok d (replace_consts consts toks)
  | .exit d => .exit d
  | .crash d => .crash d

/-- The loop of `extract_aliases`.  A well-formed `alias NAME VALUE end`
records `NAME ↦ VALUE`; when the fourth token is not the word `end` the
source emits a compiler error but — unlike every sibling error path — does
not call `sys.exit`, so the loop continues with the following tokens (the
diagnostic is accumulated in `diags`).  A WORD name token always carries a
string value in Python (`assert isinstance(name_tok.value, str)`); a
violation is a crash. -/
def extractAliasesLoop :
    List Token → List (String × Token) → List Token → List Sev →
    Res (List (String × Token) × List Token)
  | [], aliases, acc, diags => .ok diags (aliases, acc)
  | tok :: rest, aliases, acc, diags =>
      if tok.typ = TT.WORD ∧ tok.value = .str "alias" then
        match rest with
        | [] => .exit (diags ++ [.err])
        | nameTok :: rest2 =>
            if nameTok.typ = TT.WORD then
              match rest2 with
              | [] => .exit (diags ++ [.err])
              | valueTok :: rest3 =>
                  match nameTok.value with
                  | .str name =>
                      match rest3 with
                      | [] => .exit (diags ++ [.err])
                      | endTok :: rest4 =>
                          if endTok.typ = TT.WORD ∧ endTok.value = .str "end" then
                            extractAliasesLoop rest4
                              (dictInsert aliases name valueTok) acc diags
                          else
                            extractAliasesLoop rest4 aliases acc
                              (diags ++ [.err])
                  | .int _ => .crash diags
            else .exit (diags ++ [.err])
      else extractAliasesLoop rest aliases (acc ++ [tok]) diags

/-- `extract_aliases(tokens)`. -/
def extract_aliases (tokens : List Token) :
    Res (List (String × Token) × List Token) :=
  extractAliasesLoop tokens [] [] []

/-- `replace_aliases(aliases, tokens)`: a WORD token whose text is a defined
alias name is replaced by a token with the alias value's type and payload at
the reference site's location. -/
def replace_aliases (aliases : List (String × Token)) :
    List Token → List Token
  | [] => []
  | tok :: rest =>
      match tok.typ, tok.value with
      | TT.WORD, .str s =>
          match dictFind aliases s with
          | some aliasTok =>
              ⟨aliasTok.typ, aliasTok.value, tok.file, tok.row, tok.col⟩ ::
                replace_aliases aliases rest
          | Option.none => tok :: replace_aliases aliases rest
      | _, _ => tok :: replace_aliases aliases rest

/-- `preprocess_aliases(tokens)` = extract then replace. -/
def preprocess_aliases (tokens : List Token) : Res (List Token) :=
  match extract_aliases tokens with
  | .ok d (aliases, toks) => .ok d (replace_aliases aliases toks)
  | .exit d => .exit d
  | .crash d => .crash d

/-! ## Type signatures: test_proc_type_sig / apply_proc_type_sig -/

/-- The comparison loop of `test_proc_type_sig`: `for idx, arg in
enumerate(reversed(arguments))` compares `arg` with `type_stack[-1-idx]`,
i.e. the reversed argument list element-wise against the reversed stack.
Only the data types are compared, not the tokens. -/
def testSigLoop : List TypeAnn → List TypeAnn → Bool
  | [], _ => true
  | a :: ras, b :: rbs => a.1 = b.1 && testSigLoop ras rbs
  | _ :: _, [] => false

/-- `test_proc_type_sig(proc_call, type_sig, type_stack)` with
`should_error=False`: does the top of the stack match the signature's
arguments? -/
def test_proc_type_sig (sig : ProcTypeSig) (type_stack : List TypeAnn) :
    Bool :=
  if type_stack.length < sig.args.length then false
  else testSigLoop sig.args.reverse type_stack.reverse

/-- `test_proc_type_sig` with `should_error=True`: a failing length check
exits after one error; a failing type comparison exits after an error and
two notes; otherwise the call returns True. -/
def test_proc_type_sig_should_error (sig : ProcTypeSig)
    (type_stack : List TypeAnn) : Res Bool :=
  if type_stack.length < sig.args.length then .exit [.err]
  else if testSigLoop sig.args.reverse type_stack.reverse then .ok [] true
  else .exit [.err, .note, .note]

/-- `for _ in arguments: type_stack.pop()`: drop the top-most (last) `n`
entries. -/
def popN {α : Type} : Nat → List α → List α
  | 0, l => l
  | n + 1, l => popN n l.dropLast

/-- The stack produced by a (successfully tested) signature application:
pop one entry per argument, then `type_stack.extend(returns)`. -/
def applyStack (sig : ProcTypeSig) (type_stack : List TypeAnn) :
    List TypeAnn :=
  popN sig.args.length type_stack ++ sig.returns

/-- `apply_proc_type_sig(proc_call, type_sig, type_stack)`: the source
first re-asserts `test_proc_type_sig` (a failure is a crash — "compiler
bug"), then pops the arguments and extends with the returns. -/
def apply_proc_type_sig (sig : ProcTypeSig) (type_stack : List TypeAnn) :
    Res (List TypeAnn) :=
  if test_proc_type_sig sig type_stack then .ok [] (applyStack sig type_stack)
  else .crash []

/-- TypeDifference (result kinds of `stacks_match`). -/
inductive TypeDifference where
  | NONE
  | FIRST_LONGER
  | SECOND_LONGER
  | MISMATCH
deriving DecidableEq, Repr

/-- `stacks_match(type_stack1, type_stack2)` (the returned token pair of the
source is dropped along with all diagnostic payloads). -/
def stacks_match (s1 s2 : List TypeAnn) : TypeDifference :=
  if s2.length < s1.length then .FIRST_LONGER
  else if s1.length < s2.length then .SECOND_LONGER
  else if (s1.zip s2).all (fun ab => ab.1.1 = ab.2.1) then .NONE
  else .MISMATCH

/-! ## Type checker (type_check_proc) -/

/-- Markers of the block automaton (class BlockMarker in the source). -/
inductive BlockMarker where
  | IF
  | IF_DO
  | IF_MULTIPLE
  | ELIF
  | ELIF_DO
  | ELSE
deriving DecidableEq, Repr

/-- The mutable state of `type_check_proc`'s word loop: the simulated value
stack and the block stack of `(marker, snapshot)` pairs. -/
structure TCState where
  type_stack : List TypeAnn
  block_stack : List (BlockMarker × List TypeAnn)
deriving DecidableEq, Repr

/-- Result of processing one word: continue with a new state, return early
from `type_check_proc` (the unknown-proc warning path), exit, or crash. -/
inductive Step where
  | cont (diags : List Sev) (st : TCState)
  | ret (diags : List Sev)
  | exit (diags : List Sev)
  | crash (diags : List Sev)
deriving DecidableEq, Repr

/-- The extern branch of the PROC_CALL case (`for type_sig in type_sigs`):
every signature whose arguments match the *current* simulated stack is
applied in registration order — the loop has no break, so a later signature
is tested against the stack already updated by an earlier match. -/
def externLoop : List ProcTypeSig → Bool → List TypeAnn →
    Bool × List TypeAnn
  | [], found, stk => (found, stk)
  | sig :: rest, found, stk =>
      if test_proc_type_sig sig stk then
        externLoop rest true (applyStack sig stk)
      else externLoop rest found stk

/-- Extern overload handling in `type_check_proc` (lines 1025–1046): run
`externLoop`; if no signature ever matched, emit the error, the "Expected
one of:" note and one note per candidate signature, and exit. -/
def externResolve (sigs : List ProcTypeSig) (type_stack : List TypeAnn) :
    Res (List TypeAnn) :=
  match externLoop sigs false type_stack with
  | (true, stk) => .ok [] stk
  | (false, _) =>
      .exit ([.err, .note] ++ sigs.map (fun _ => Sev.note))

/-- Processing of a single word by `type_check_proc`'s main loop, following
the source's elif chain.  `ELSE`, `END`, `WHILE` and a repeated `IF` inside
the final keyword tuple hit `assert False, "Not implemented :("`; any other
unhandled word hits the final `assert False`. -/
def tcWord (program : Program) (w : Word) (st : TCState) : Step :=
  if w.typ = OT.PUSH_INT then
    .cont [] { st with type_stack := st.type_stack ++ [(DT.INT, w.tok)] }
  else if w.typ = OT.PUSH_STR then
    .cont [] { st with type_stack := st.type_stack ++ [(DT.STR, w.tok)] }
  else if w.typ = OT.PUSH_MEMORY then
    .cont [] { st with type_stack := st.type_stack ++ [(DT.PTR, w.tok)] }
  else if w.typ = OT.PROC_CALL then
    match w.operand with
    | .str name =>
        match dictFind program.procs name with
        | some callee =>
            match test_proc_type_sig_should_error callee.type_sig st.type_stack with
            | .ok d _ =>
                match apply_proc_type_sig callee.type_sig st.type_stack with
                | .ok d2 stk => .cont (d ++ d2) { st with type_stack := stk }
                | .exit d2 => .exit (d ++ d2)
                | .crash d2 => .crash (d ++ d2)
            | .exit d => .exit d
            | .crash d => .crash d
        | Option.none =>
            match dictFind program.externs name with
            | some sigs =>
                match externResolve sigs st.type_stack with
                | .ok d stk => .cont d { st with type_stack := stk }
                | .exit d => .exit d
                | .crash d => .crash d
            | Option.none => .ret [.warn, .note]
    | _ => .ret [.warn, .note]
  else if w.typ = OT.KEYWORD ∧ w.operand = .kw Keyword.IF then
    .cont [] { st with block_stack := st.block_stack ++ [(BlockMarker.IF, [])] }
  else if w.typ = OT.KEYWORD ∧ w.operand = .kw Keyword.DO then
    match popLast? st.block_stack with
    | Option.none => .crash []
    | some ((marker, snapshot), bs) =>
        if marker = BlockMarker.IF then
          .cont [] { st with
            block_stack := bs ++ [(BlockMarker.IF_DO, st.type_stack)] }
        else if marker = BlockMarker.ELIF then
          let _ := stacks_match snapshot st.type_stack
          .cont [] { st with block_stack := bs }
        else .cont [] { st with block_stack := bs }
  else if w.typ = OT.KEYWORD ∧
      (w.operand = .kw Keyword.IF ∨ w.operand = .kw Keyword.ELIF ∨
       w.operand = .kw Keyword.ELSE ∨ w.operand = .kw Keyword.WHILE ∨
       w.operand = .kw Keyword.END) then
    .crash []
  else .crash []

/-- Outcome of running the word loop to completion. -/
inductive RunOut where
  | done (diags : List Sev) (st : TCState)
  | ret (diags : List Sev)
  | exit (diags : List Sev)
  | crash (diags : List Sev)
deriving DecidableEq, Repr

/-- `for word in proc.words` of `type_check_proc`. -/
def tcWords (program : Program) : List Word → TCState → RunOut
  | [], st => .done [] st
  | w :: ws, st =>
      match tcWord program w st with
      | .cont d st' =>
          match tcWords program ws st' with
          | .done d2 stf => .done (d ++ d2) stf
          | .ret d2 => .ret (d ++ d2)
          | .exit d2 => .exit (d ++ d2)
          | .crash d2 => .crash (d ++ d2)
      | .ret d => .ret d
      | .exit d => .exit d
      | .crash d => .crash d

/-- The return-shape comparison after the loop: length mismatch is an error
plus a note, plus one note per stack entry when the stack is too long; a
type mismatch in the zip is an error plus two notes. -/
def tcReturnCheck (returns : List TypeAnn) (type_stack : List TypeAnn) :
    Res Unit :=
  if returns.length ≠ type_stack.length then
    .exit ([.err, .note] ++
      (if returns.length < type_stack.length then
        type_stack.map (fun _ => Sev.note)
      else []))
  else if (returns.zip type_stack).all (fun ab => ab.1.1 = ab.2.1) then
    .ok [] ()
  else .exit [.err, .note, .note]

/-- `type_check_proc(name, proc, program)`: seed the simulated stack with
the declared arguments, run the word loop, then compare the final stack
with the declared returns.  The warning path returns without the final
comparison. -/
def type_check_proc (name : String) (proc : Proc) (program : Program) :
    Res Unit :=
  let _ := name
  match tcWords program proc.words ⟨proc.type_sig.args, []⟩ with
  | .done d st =>
      match tcReturnCheck proc.type_sig.returns st.type_stack with
      | .ok d2 u => .ok (d ++ d2) u
      | .exit d2 => .exit (d ++ d2)
      | .crash d2 => .crash (d ++ d2)
  | .ret d => .ok d ()
  | .exit d => .exit d
  | .crash d => .crash d

/-- `type_check_program(program)`: type-check every procedure in insertion
order, then check `main`'s signature (`int ptr -> int`). -/
def type_check_program (program : Program) : Res Unit :=
  match
    (program.procs.foldl
      (fun (acc : Res Unit) p =>
        match acc with
        | .ok d _ =>
            match type_check_proc p.1 p.2 program with
            | .ok d2 u => .ok (d ++ d2) u
            | .exit d2 => .exit (d ++ d2)
            | .crash d2 => .crash (d ++ d2)
        | other => other)
      (.ok [] ())) with
  | .ok d _ =>
      match dictFind program.procs "main" with
      | some mainProc =>
          let sig := mainProc.type_sig
          if sig.args.length ≠ 2 ∨
              (sig.args.head?.map Prod.fst) ≠ some DT.INT ∨
              ((sig.args.drop 1).head?.map Prod.fst) ≠ some DT.PTR ∨
              sig.returns.length ≠ 1 ∨
              (sig.returns.head?.map Prod.fst) ≠ some DT.INT then
            .exit (d ++ [.err])
          else .ok d ()
      | Option.none => .ok d ()
  | .exit d => .exit d
  | .crash d => .crash d

/-! ## Cross-referencer (crossreference_proc) -/

/-- `proc.words[i].jmp = j` (out-of-range writes cannot occur on the paths
the source reaches, and are modeled as no-ops like `List.set`). -/
def setJmp (ws : List Word) (i j : Nat) : List Word :=
  match ws[i]? with
  | some w => ws.set i { w with jmp := some j }
  | Option.none => ws

/-- One iteration of the `for ip, word in enumerate(proc.words)` loop of
`crossreference_proc`, mirroring the source's (broken) branch structure:

* for a KEYWORD word, an `if` first pushes `ip`, but then the *separate*
  `if WHILE / elif ELIF / else` chain falls into its `else` (an error exit)
  for every keyword other than WHILE and ELIF — including `if`, `do`,
  `else` and `end`;
* a WHILE pushes `ip` twice (once in its own branch, once by the trailing
  `stack.append(ip)`);
* the outer `elif word.operand == DO / ELSE / END` arms are only reachable
  for words whose `typ` is not KEYWORD, which never carry keyword operands.

Pops from an empty position stack are the source's try/except IndexError
error exits; an out-of-range `proc.words[start_ip]` read would be an
uncaught IndexError (crash). -/
def xrefStep (ws : List Word) (stack : List Nat) (ip : Nat) (w : Word) :
    Res (List Word × List Nat) :=
  if w.typ = OT.KEYWORD then
    let stack1 := if w.operand = .kw Keyword.IF then stack ++ [ip] else stack
    if w.operand = .kw Keyword.WHILE then
      .ok [] (ws, (stack1 ++ [ip]) ++ [ip])
    else if w.operand = .kw Keyword.ELIF then
      match popLast2? stack1 with
      | Option.none => .exit [.err]
      | some (do_ip, start_ip, stack2) =>
          match ws[start_ip]? with
          | Option.none => .crash []
          | some startWord =>
              if startWord.operand = .kw Keyword.IF then
                .ok [] (setJmp ws do_ip ip, stack2 ++ [ip])
              else if startWord.operand = .kw Keyword.ELIF then
                .ok [] (setJmp (setJmp ws do_ip ip) start_ip ip, stack2 ++ [ip])
              else .ok [] (ws, stack2 ++ [ip])
    else .exit [.err]
  else if w.operand = .kw Keyword.DO then
    .ok [] (ws, stack ++ [ip])
  else if w.operand = .kw Keyword.ELSE then
    match popLast2? stack with
    | Option.none => .exit [.err]
    | some (do_ip, start_ip, stack2) =>
        match ws[start_ip]? with
        | Option.none => .crash []
        | some startWord =>
            if startWord.operand = .kw Keyword.IF ∨
                startWord.operand = .kw Keyword.ELIF then
              .ok [] (setJmp (setJmp ws ip ip) do_ip ip,
                (stack2 ++ [start_ip]) ++ [ip])
            else .exit [.err]
  else if w.operand = .kw Keyword.END then
    match popLast2? stack with
    | Option.none => .exit [.err]
    | some (do_ip, start_ip, stack2) =>
        match ws[start_ip]? with
        | Option.none => .crash []
        | some startWord =>
            if startWord.operand = .kw Keyword.IF then
              .ok [] (setJmp (setJmp ws ip ip) do_ip ip, stack2)
            else if startWord.operand = .kw Keyword.ELIF then
              .ok [] (setJmp (setJmp (setJmp ws ip ip) start_ip ip) do_ip ip,
                stack2)
            else if startWord.operand = .kw Keyword.WHILE then
              .ok [] (setJmp (setJmp ws ip start_ip) do_ip ip, stack2)
            else .exit [.err]
  else .ok [] (ws, stack)

/-- The word loop of `crossreference_proc`: `enumerate(proc.words)` visits
exactly one index per word of the list at loop entry (jmp writes never
change the length), so the loop is driven by the remaining iteration count
`n`; after the loop, a non-empty position stack is the unclosed-block error
exit.  The `none` case of the index read is unreachable because `setJmp`
preserves the length. -/
def xrefLoop : Nat → List Word → List Nat → Nat → Res (List Word)
  | 0, ws, stack, _ => if stack ≠ [] then .exit [.err] else .ok [] ws
  | n + 1, ws, stack, ip =>
      match ws[ip]? with
      | some w =>
          match xrefStep ws stack ip w with
          | .ok _ (ws', stack') => xrefLoop n ws' stack' (ip + 1)
          | .exit d => .exit d
          | .crash d => .crash d
      | Option.none => .crash []

/-- The body of `crossreference_proc` after its two leading asserts,
returning the word list with jmp fields filled in. -/
def crossreferenceBody (ws : List Word) : Res (List Word) :=
  xrefLoop ws.length ws [] 0

/-- `crossreference_proc(proc)`: the function opens with
`assert len(OT) == 8` and `assert len(Keyword) == 8`.  OT has 9 members and
Keyword has 10, so both asserts are false and every call crashes before
reaching the loop. -/
def crossreference_proc (proc : Proc) : Res (List Word) :=
  if allOT.length = 8 then
    if allKeyword.length = 8 then crossreferenceBody proc.words
    else .crash []
  else .crash []

/-! ## Claim-side auxiliary definitions

`externResolveSpec` follows the specification's words ("pick the first
signature in registration order whose argument types match; apply it") for
the refinement comparison of the extern-overload claim.  `constReplacer` is
the per-token substitution the const claim describes. -/

/-- Specification-side definition for the refinement comparison of the
extern-overload claim: resolution that applies exactly the first matching
signature and nothing else. -/
def externResolveSpec (sigs : List ProcTypeSig)
    (type_stack : List TypeAnn) : Option (List TypeAnn) :=
  (sigs.find? (fun sig => test_proc_type_sig sig type_stack)).map
    (fun sig => applyStack sig type_stack)

/-- The substitution described by the const claim: a WORD token whose text
is `name` becomes an INT token with value `v` at the reference site's file,
row and column; every other token is unchanged. -/
def constReplacer (name : String) (v : Int) (tok : Token) : Token :=
  if tok.typ = TT.WORD ∧ tok.value = .str name then
    ⟨TT.INT, .int v, tok.file, tok.row, tok.col⟩
  else tok

/-- Tokens of the forms the const claim allows in a body: an INT literal or
one of the operator words `+`, `-`, `*`. -/
def rpnBodyTok (tok : Token) : Bool :=
  (tok.typ == TT.INT &&
      (match tok.value with | .int _ => true | .str _ => false)) ||
    (tok.typ == TT.WORD &&
      (tok.value == .str "+" || tok.value == .str "-" ||
        tok.value == .str "*"))

/-- Does a token list contain a token that would trigger the `include`
branch of `preprocess_includes`? -/
def hasIncludeWord (toks : List Token) : Bool :=
  toks.any (fun t => t.typ = TT.WORD ∧ t.value = .str "include")

/-- Does a token list contain a token that would trigger the `const`
branch of `extract_consts`? -/
def hasConstWord (toks : List Token) : Bool :=
  toks.any (fun t => t.typ = TT.WORD ∧ t.value = .str "const")

/-- A WORD token whose text is a defined alias name (the configurations the
alias-totality claim says cannot survive preprocessing). -/
def aliasNameHit (aliases : List (String × Token)) (tok : Token) : Bool :=
  tok.typ == TT.WORD &&
    (match tok.value with
     | .str s => (dictFind aliases s).isSome
     | .int _ => false)

/-- No token of the list is a WORD naming a defined alias. -/
def noAliasHits (aliases : List (String × Token)) (toks : List Token) :
    Bool :=
  toks.all (fun t => !aliasNameHit aliases t)

/-- Every alias value avoids being itself a WORD naming a defined alias
(the hypothesis the amended alias claim needs). -/
def aliasValuesClean (aliases : List (String × Token)) : Bool :=
  aliases.all (fun p => !aliasNameHit aliases p.2)

/-! ## Concrete fixtures -/

/-- A WORD token at the default location. -/
def wT (s : String) : Token := ⟨TT.WORD, .str s, "test.collver", 0, 0⟩

/-- An INT token at the default location. -/
def iT (n : Int) : Token := ⟨TT.INT, .int n, "test.collver", 0, 0⟩

/-- A STRING token at the default location. -/
def sT (s : String) : Token := ⟨TT.STRING, .str s, "test.collver", 0, 0⟩

/-- A keyword word. -/
def kwW (k : Keyword) (s : String) : Word :=
  ⟨OT.KEYWORD, .kw k, wT s, Option.none⟩

/-- A push-int word. -/
def pushIntW (n : Int) : Word := ⟨OT.PUSH_INT, .int n, iT n, Option.none⟩

/-- The procedure parsed from `proc f -> int do if 1 do 2 else 2 end end`:
an `if ... do ... else ... end` whose two branches are the identical
straight-line word `2`. -/
def ifElseProc : Proc :=
  { proc_tok := wT "proc"
    memories := []
    type_sig := ⟨[], [(DT.INT, wT "int")], wT "->"⟩
    strings := []
    words :=
      [kwW .IF "if", pushIntW 1, kwW .DO "do", pushIntW 2,
       kwW .ELSE "else", pushIntW 2, kwW .END "end"] }

/-- The program holding only `ifElseProc`. -/
def ifElseProgram : Program :=
  ⟨"test.collver", [("f", ifElseProc)], [], []⟩

/-- The words of the `else` branch of `ifElseProc`. -/
def ifElseBranchA : List Word := [pushIntW 2]

/-- The words of the `then` branch of `ifElseProc` (identical). -/
def ifElseBranchB : List Word := [pushIntW 2]

/-- The simulated state reached just after the `do` of `ifElseProc`. -/
def ifElsePreBranch : TCState := ⟨[(DT.INT, iT 1)], []⟩

/-- The procedure parsed from `proc w -> do while 1 do end end`: a
well-nested `while ... do ... end` block. -/
def whileProc : Proc :=
  { proc_tok := wT "proc"
    memories := []
    type_sig := ⟨[], [], wT "->"⟩
    strings := []
    words := [kwW .WHILE "while", pushIntW 1, kwW .DO "do", kwW .END "end"] }

/-- The procedure parsed from `proc main int ptr -> int do 0 end`. -/
def mainProc : Proc :=
  { proc_tok := wT "proc"
    memories := []
    type_sig :=
      ⟨[(DT.INT, wT "int"), (DT.PTR, wT "ptr")], [(DT.INT, wT "int")],
        wT "->"⟩
    strings := []
    words := [pushIntW 0] }

/-- The single-procedure program `proc main int ptr -> int do 0 end`. -/
def mainProgram : Program :=
  ⟨"test.collver", [("main", mainProc)], [], []⟩

/-- Tokens of `alias a b c 42`: the fourth token of the alias form exists
but is not the word `end`. -/
def malformedAliasToks : List Token :=
  [wT "alias", wT "a", wT "b", wT "c", iT 42]

/-! ## Claim theorems -/

/-- Claim C1 (code bug): for the procedure body
`if 1 do 2 else 2 end` both branches, simulated from the state reached
after `do`, produce identical stack shapes — by the claim, type checking
must succeed — yet `type_check_proc` crashes on the `else` word at the
source's `assert False, "Not implemented :("`, contradicting the intended
branch-equivalence rule documented in the function's own docstring. -/
theorem c1_if_else_type_check_crashes :
    tcWords ifElseProgram ifElseBranchA ifElsePreBranch =
        .done [] ⟨[(DT.INT, iT 1), (DT.INT, iT 2)], []⟩ ∧
      tcWords ifElseProgram ifElseBranchB ifElsePreBranch =
        .done [] ⟨[(DT.INT, iT 1), (DT.INT, iT 2)], []⟩ ∧
      type_check_proc "f" ifElseProc ifElseProgram = .crash [] := by
  refine ⟨by decide, by decide, by decide⟩

/-- Claim C3 (code bug): for the procedure `while 1 do end`,
`crossreference_proc` does not complete and never writes any jmp field: its
leading asserts `len(OT) == 8` and `len(Keyword) == 8` are false (OT has 9
members, Keyword 10), so it crashes immediately; and even the loop body
behind the asserts error-exits on the `do` keyword, because the malformed
branch structure sends every keyword except `while`/`elif` into the
`else: compiler_error(...); sys.exit(1)` arm. -/
theorem c3_crossreference_while_crashes :
    crossreference_proc whileProc = .crash [] ∧
      crossreferenceBody whileProc.words = .exit [.err] := by
  refine ⟨by decide, by decide⟩

/-- Claim C4 counterexample: type-checking the program
`proc main int ptr -> int do 0 end` does not succeed — it exits with an
error diagnostic (and four notes), refuting the claim that it type-checks
with no diagnostics. -/
theorem c4_minimal_main_counterexample :
    type_check_program mainProgram =
      .exit [.err, .note, .note, .note, .note] := by
  decide

/-- Claim C4 amended: on `proc main int ptr -> int do 0 end` the simulated
stack after the last word of main's body has exactly three entries — the
two seeded argument types plus the pushed int — so the checker reports a
return-count mismatch (1 declared vs 3 simulated) and exits. -/
theorem c4_minimal_main_rejected :
    tcWords mainProgram mainProc.words ⟨mainProc.type_sig.args, []⟩ =
        .done []
          ⟨[(DT.INT, wT "int"), (DT.PTR, wT "ptr"), (DT.INT, iT 0)], []⟩ ∧
      type_check_proc "main" mainProc mainProgram =
        .exit [.err, .note, .note, .note, .note] := by
  refine ⟨by decide, by decide⟩

/-- Claim C8 (code bug): on `alias a b c 42` (fourth token of the alias
form present but not `end`) the source emits the error diagnostic but does
not exit: `extract_aliases` returns normally, the alias is not recorded,
and the token after the malformed definition is still processed into the
output. -/
theorem c8_malformed_alias_no_exit :
    extract_aliases malformedAliasToks = .ok [.err] ([], [iT 42]) ∧
      preprocess_aliases malformedAliasToks = .ok [.err] [iT 42] := by
  refine ⟨by decide, by decide⟩

/-! ## Supporting lemmas -/

/-- Popping `n ≤ length` elements from the top (end) of a stack keeps
exactly the first `length - n` entries unchanged. -/
theorem popN_eq_take {α : Type} :
    ∀ (n : Nat) (l : List α), n ≤ l.length →
      popN n l = l.take (l.length - n) := by
  intro n
  induction n with
  | zero => intro l _; simp [popN]
  | succ n ih =>
      intro l h
      have hlen : l.dropLast.length = l.length - 1 := by simp
      rw [popN, ih l.dropLast (by omega)]
      rw [hlen, List.dropLast_eq_take, List.take_take]
      congr 1
      omega

/-- A signature test that succeeds implies the stack is at least as long as
the argument list. -/
theorem test_le_of_true (sig : ProcTypeSig) (st : List TypeAnn)
    (h : test_proc_type_sig sig st = true) : sig.args.length ≤ st.length := by
  by_contra hc
  push_neg at hc
  simp [test_proc_type_sig, hc] at h

/-- A run of signatures that all fail against the current stack leaves the
extern loop state unchanged. -/
theorem externLoop_all_fail (rest : List ProcTypeSig) (found : Bool)
    (st : List TypeAnn)
    (h : ∀ s ∈ rest, test_proc_type_sig s st = false) :
    externLoop rest found st = (found, st) := by
  induction rest with
  | nil => rfl
  | cons p ps ih =>
      have hp := h p (by simp)
      simp only [externLoop, hp, Bool.false_eq_true, if_false]
      exact ih (fun s hs => h s (by simp [hs]))

/-- Skipping a failing prefix of the signature list. -/
theorem externLoop_append_fail (pre rest : List ProcTypeSig) (found : Bool)
    (st : List TypeAnn)
    (h : ∀ s ∈ pre, test_proc_type_sig s st = false) :
    externLoop (pre ++ rest) found st = externLoop rest found st := by
  induction pre with
  | nil => rfl
  | cons p ps ih =>
      have hp := h p (by simp)
      simp only [List.cons_append, externLoop, hp, Bool.false_eq_true,
        if_false]
      exact ih (fun s hs => h s (by simp [hs]))

/-! ## Claims C10 and C2 -/

/-- Claim C10: applying a procedure type signature to a simulated stack
that satisfies it pops exactly `len(args)` entries and appends the
signature's returns; every entry below the consumed arguments is kept
unchanged, so the new stack is the old stack without its top `len(args)`
entries followed by the returns. -/
theorem c10_apply_type_sig_frame (sig : ProcTypeSig) (st : List TypeAnn)
    (h : test_proc_type_sig sig st = true) :
    apply_proc_type_sig sig st =
      .ok [] (st.take (st.length - sig.args.length) ++ sig.returns) := by
  have hle := test_le_of_true sig st h
  simp only [apply_proc_type_sig, applyStack, h, if_true]
  rw [popN_eq_take sig.args.length st hle]

/-- The signature `int -> ptr` of the C10 witness. -/
def c10sig : ProcTypeSig :=
  ⟨[(DT.INT, wT "int")], [(DT.PTR, wT "ptr")], wT "->"⟩

/-- The stack of the C10 witness. -/
def c10stack : List TypeAnn := [(DT.STR, wT "s"), (DT.INT, wT "i")]

/-- Witness for C10 at a concrete signature and stack. -/
theorem c10_apply_type_sig_frame_witness :
    test_proc_type_sig c10sig c10stack = true ∧
      apply_proc_type_sig c10sig c10stack =
        .ok [] [(DT.STR, wT "s"), (DT.PTR, wT "ptr")] :=
  ⟨by decide, by
    have h := c10_apply_type_sig_frame c10sig c10stack (by decide)
    simpa using h⟩

/-- First registered extern signature of the C2 counterexample:
`int -> ptr`. -/
def c2sig1 : ProcTypeSig :=
  ⟨[(DT.INT, wT "int")], [(DT.PTR, wT "ptr")], wT "->"⟩

/-- Second registered extern signature of the C2 counterexample:
`ptr -> int`. -/
def c2sig2 : ProcTypeSig :=
  ⟨[(DT.PTR, wT "ptr")], [(DT.INT, wT "int")], wT "->"⟩

/-- The simulated stack of the C2 counterexample: one `int` on top. -/
def c2stack : List TypeAnn := [(DT.INT, iT 7)]

/-- Claim C2 counterexample: with the two registered signatures
`int -> ptr` and `ptr -> int` and stack `[int]`, the checker's extern loop
applies the first signature (matching `int`) *and then also* the second
signature (which matches the updated stack `[ptr]`), ending with `[int]` —
not the `[ptr]` that applying only the first matching signature (the
claim's statement, `externResolveSpec`) produces. -/
theorem c2_extern_overload_counterexample :
    externResolve [c2sig1, c2sig2] c2stack = .ok [] [(DT.INT, wT "int")] ∧
      externResolveSpec [c2sig1, c2sig2] c2stack =
        some [(DT.PTR, wT "ptr")] ∧
      ([(DT.INT, wT "int")] : List TypeAnn) ≠ [(DT.PTR, wT "ptr")] := by
  refine ⟨by decide, by decide, by decide⟩

/-- Claim C2 amended: the checker applies, in registration order, every
signature whose arguments match the simulated stack at the moment it is
examined; in particular the first matching signature is always applied, and
when no later signature matches the post-application stack, exactly one
signature is applied and the result is precisely the application of the
first match. -/
theorem c2_extern_first_match_applied (pre post : List ProcTypeSig)
    (sig : ProcTypeSig) (st : List TypeAnn)
    (h1 : ∀ s ∈ pre, test_proc_type_sig s st = false)
    (h2 : test_proc_type_sig sig st = true)
    (h3 : ∀ s ∈ post, test_proc_type_sig s (applyStack sig st) = false) :
    externResolve (pre ++ sig :: post) st = .ok [] (applyStack sig st) := by
  unfold externResolve
  rw [externLoop_append_fail pre (sig :: post) false st h1]
  simp only [externLoop, h2, if_true]
  rw [externLoop_all_fail post true _ h3]

/-- Witness for the amended C2 at concrete signatures: `pre = [ptr -> int]`
fails on `[int]`, `int -> ptr` matches, and the trailing `str -> int`
signature does not match the updated stack `[ptr]`. -/
theorem c2_extern_first_match_applied_witness :
    test_proc_type_sig c2sig2 c2stack = false ∧
      test_proc_type_sig c2sig1 c2stack = true ∧
      test_proc_type_sig ⟨[(DT.STR, wT "str")], [], wT "->"⟩
        (applyStack c2sig1 c2stack) = false ∧
      externResolve [c2sig2, c2sig1, ⟨[(DT.STR, wT "str")], [], wT "->"⟩]
        c2stack = .ok [] [(DT.PTR, wT "ptr")] :=
  ⟨by decide, by decide, by decide, by
    have h := c2_extern_first_match_applied [c2sig2]
      [⟨[(DT.STR, wT "str")], [], wT "->"⟩] c2sig1 c2stack
      (by decide) (by decide) (by decide)
    simpa using h⟩

/-- A successful association-list lookup witnesses membership. -/
theorem dictFind_mem {α : Type} :
    ∀ (d : List (String × α)) (k : String) (v : α),
      dictFind d k = some v → (k, v) ∈ d := by
  intro d
  induction d with
  | nil => intro k v h; simp [dictFind] at h
  | cons p rest ih =>
      intro k v h
      obtain ⟨k', v'⟩ := p
      simp only [dictFind] at h
      split at h
      · injection h with h
        subst h
        rename_i heq
        subst heq
        exact List.mem_cons_self _ _
      · exact List.mem_cons_of_mem _ (ih k v h)

/-- When every alias value avoids naming a defined alias, the output of
`replace_aliases` contains no WORD token naming a defined alias, whatever
the input tokens are: a replaced token copies a (clean) alias value, and an
unreplaced WORD token's text is not an alias key by definition of the
replacement. -/
theorem replace_aliases_clean (aliases : List (String × Token))
    (hvals : aliasValuesClean aliases = true) :
    ∀ toks : List Token,
      noAliasHits aliases (replace_aliases aliases toks) = true := by
  intro toks
  induction toks with
  | nil => rfl
  | cons tok rest ih =>
      obtain ⟨typ, val, file, row, col⟩ := tok
      cases typ <;> cases val
      all_goals
        try
          (simp only [replace_aliases, noAliasHits, List.all_cons,
             Bool.and_eq_true]
           exact ⟨by simp [aliasNameHit], ih⟩)
      -- remaining case: a WORD token with a string value
      rename_i s
      cases hfind : dictFind aliases s with
      | none =>
          simp only [replace_aliases, hfind, noAliasHits, List.all_cons,
            Bool.and_eq_true]
          refine ⟨?_, ih⟩
          simp [aliasNameHit, hfind]
      | some atok =>
          have hmem := dictFind_mem aliases s atok hfind
          have hclean := (List.all_eq_true.mp hvals) (s, atok) hmem
          simp only [replace_aliases, hfind, noAliasHits, List.all_cons,
            Bool.and_eq_true]
          refine ⟨?_, ih⟩
          have hsame :
              aliasNameHit aliases
                  ⟨atok.typ, atok.value, file, row, col⟩ =
                aliasNameHit aliases atok := by
            simp [aliasNameHit]
          rw [hsame]
          simpa using hclean

/-- Tokens of `alias a a end a`: the alias value is itself the alias
name. -/
def c5toks : List Token := [wT "alias", wT "a", wT "a", wT "end", wT "a"]

/-- Claim C5 counterexample: for the input `alias a a end a`,
alias preprocessing produces a token list whose (only) WORD token has text
`a`, which is a defined alias name — the claimed totality fails. -/
theorem c5_alias_totality_counterexample :
    extract_aliases c5toks = .ok [] ([("a", wT "a")], [wT "a"]) ∧
      preprocess_aliases c5toks = .ok [] [wT "a"] ∧
      noAliasHits [("a", wT "a")]
        (replace_aliases [("a", wT "a")] [wT "a"]) = false := by
  refine ⟨by decide, by decide, by decide⟩

/-- Claim C5 amended: alias substitution is total provided no alias value
is itself a WORD token naming a defined alias (the counterexample's
configuration): then, after `extract_aliases` followed by
`replace_aliases`, no WORD token of the result has a text equal to a
defined alias name. -/
theorem c5_alias_totality_amended (toks : List Token) (d : List Sev)
    (aliases : List (String × Token)) (rest : List Token)
    (h : extract_aliases toks = .ok d (aliases, rest))
    (hvals : aliasValuesClean aliases = true) :
    preprocess_aliases toks = .ok d (replace_aliases aliases rest) ∧
      noAliasHits aliases (replace_aliases aliases rest) = true := by
  constructor
  · simp only [preprocess_aliases, h]
  · exact replace_aliases_clean aliases hvals rest

/-- Tokens of `alias a b end a` for the C5 witness. -/
def c5wit : List Token := [wT "alias", wT "a", wT "b", wT "end", wT "a"]

/-- Witness for the amended C5 on `alias a b end a`. -/
theorem c5_alias_totality_amended_witness :
    extract_aliases c5wit = .ok [] ([("a", wT "b")], [wT "a"]) ∧
      aliasValuesClean [("a", wT "b")] = true ∧
      (preprocess_aliases c5wit =
          .ok [] (replace_aliases [("a", wT "b")] [wT "a"]) ∧
        noAliasHits [("a", wT "b")]
          (replace_aliases [("a", wT "b")] [wT "a"]) = true) :=
  ⟨by decide, by decide,
    c5_alias_totality_amended c5wit [] [("a", wT "b")] [wT "a"]
      (by decide) (by decide)⟩

/-- A token list with no `include` word passes through one include scan
unchanged (appended to the accumulator). -/
theorem includePass_no_include (fs : List (String × List Token)) :
    ∀ (toks : List Token) (incl : List String) (acc : List Token),
      hasIncludeWord toks = false →
      includePass fs toks incl acc = .ok [] (acc ++ toks, incl) := by
  intro toks
  induction toks with
  | nil => intro incl acc _; simp [includePass]
  | cons tok rest ih =>
      intro incl acc h
      have hhead : ¬(tok.typ = TT.WORD ∧ tok.value = .str "include") := by
        intro hc
        simp [hasIncludeWord, hc] at h
      have hrest : hasIncludeWord rest = false := by
        simp only [hasIncludeWord, List.any_cons, Bool.or_eq_false_iff] at h
        exact h.2
      conv_lhs => rw [includePass.eq_def]
      simp only [if_neg hhead]
      rw [ih incl (acc ++ [tok]) hrest]
      simp

/-- Claim C9 amended: a token list containing no `include` word is a fixed
point of `preprocess_includes` (for every file system and already-included
set); the general idempotence fails because the iteration stops as soon as
a pass does not grow the token list, even if an expandable `include` pair
remains. -/
theorem c9_include_fixed_point_amended (fs : List (String × List Token))
    (toks : List Token) (incl : List String)
    (h : hasIncludeWord toks = false) :
    preprocess_includes fs toks incl = .ok [] toks := by
  unfold preprocess_includes
  simp only [preprocessIncludesFuel]
  rw [includePass_no_include fs toks incl [] h]
  simp

/-- Witness for the amended C9 on a one-token list. -/
theorem c9_include_fixed_point_amended_witness :
    hasIncludeWord [iT 1] = false ∧
      preprocess_includes [] [iT 1] [] = .ok [] [iT 1] :=
  ⟨by decide, c9_include_fixed_point_amended [] [iT 1] [] (by decide)⟩

/-- The abstract file system of the C9 counterexample: file `a` contains
the pair `include "b"`, file `b` contains the single token `7`. -/
def c9fs : List (String × List Token) :=
  [("a", [wT "include", sT "b"]), ("b", [iT 7])]

/-- The input tokens `include "a"` of the C9 counterexample. -/
def c9toks : List Token := [wT "include", sT "a"]

/-- Claim C9 counterexample: expanding `include "a"` replaces the pair by
file `a`'s two tokens `include "b"`, which does not grow the list, so the
iteration stops with an expandable include pair still present; running
`preprocess_includes` on that output yields `[7]`, a different token list —
include expansion is not idempotent. -/
theorem c9_include_idempotence_counterexample :
    preprocess_includes c9fs c9toks [] = .ok [] [wT "include", sT "b"] ∧
      preprocess_includes c9fs [wT "include", sT "b"] [] =
        .ok [] [iT 7] ∧
      ([wT "include", sT "b"] : List Token) ≠ [iT 7] := by
  refine ⟨by decide, by decide, by decide⟩

/-- The RPN evaluation named by the const claim: INT literals push, `+`,
`-`, `*` pop `a` then `b` and push `a+b`, `b-a`, `a*b` respectively; any
other token, or an operator on fewer than two values, fails. -/
def rpnEval : List Token → List Int → Option (List Int)
  | [], st => some st
  | t :: ts, st =>
      if t.typ = TT.INT then
        match t.value with
        | .int n => rpnEval ts (st ++ [n])
        | .str _ => Option.none
      else if t.typ = TT.WORD ∧ t.value = .str "+" then
        match popLast2? st with
        | some (a, b, s) => rpnEval ts (s ++ [a + b])
        | Option.none => Option.none
      else if t.typ = TT.WORD ∧ t.value = .str "-" then
        match popLast2? st with
        | some (a, b, s) => rpnEval ts (s ++ [b - a])
        | Option.none => Option.none
      else if t.typ = TT.WORD ∧ t.value = .str "*" then
        match popLast2? st with
        | some (a, b, s) => rpnEval ts (s ++ [a * b])
        | Option.none => Option.none
      else Option.none

/-- On a body of INT literals and `+`/`-`/`*` words, with no consts defined
yet, the source's const-body loop performs exactly the claim's RPN
evaluation, stops at the closing `end`, and leaves the offset counter
untouched. -/
theorem constBodyLoop_rpn (endTok : Token) (S : List Token)
    (hend : endTok.typ = TT.WORD ∧ endTok.value = .str "end") :
    ∀ (body : List Token) (st : List Int) (off : Int) (out : List Int),
      body.all rpnBodyTok = true → rpnEval body st = some out →
      constBodyLoop [] (body ++ endTok :: S) st off = .ok [] (out, off, S) := by
  intro body
  induction body with
  | nil =>
      intro st off out _ heval
      simp only [rpnEval] at heval
      injection heval with heq
      subst heq
      simp only [List.nil_append]
      conv_lhs => rw [constBodyLoop.eq_def]
      simp [hend]
  | cons t ts ih =>
      intro st off out hall heval
      simp only [List.all_cons, Bool.and_eq_true] at hall
      obtain ⟨ht, hts⟩ := hall
      obtain ⟨typ, val, file, row, col⟩ := t
      cases typ <;> cases val
      · -- INT literal
        rename_i n
        rw [rpnEval.eq_def] at heval
        simp at heval
        conv_lhs => rw [constBodyLoop.eq_def]
        simp only [List.cons_append]
        simp [constLookup, dictFind]
        exact ih _ _ _ hts heval
      · simp [rpnBodyTok] at ht
      · simp [rpnBodyTok] at ht
      · simp [rpnBodyTok] at ht
      · simp [rpnBodyTok] at ht
      · -- operator word
        rename_i s
        simp [rpnBodyTok] at ht
        rcases ht with (rfl | rfl) | rfl <;>
          (rw [rpnEval.eq_def] at heval
           simp at heval
           cases hpop : popLast2? st with
           | none => rw [hpop] at heval; simp at heval
           | some triple =>
               obtain ⟨a, b, strest⟩ := triple
               rw [hpop] at heval
               simp at heval
               conv_lhs => rw [constBodyLoop.eq_def]
               simp only [List.cons_append]
               simp [constLookup, dictFind, hpop]
               exact ih _ _ _ hts heval)

/-- A const-free prefix of the token stream passes through the extraction
loop into the accumulator. -/
theorem extractConstsLoop_append (P : List Token)
    (h : hasConstWord P = false) :
    ∀ (rest : List Token) (consts : List (String × Int))
      (acc : List Token) (off : Int),
      extractConstsLoop (P ++ rest) consts acc off =
        extractConstsLoop rest consts (acc ++ P) off := by
  induction P with
  | nil => intro rest consts acc off; simp
  | cons p ps ih =>
      intro rest consts acc off
      have hp : ¬(p.typ = TT.WORD ∧ p.value = .str "const") := by
        intro hc
        simp [hasConstWord, hc] at h
      have hps : hasConstWord ps = false := by
        simp only [hasConstWord, List.any_cons, Bool.or_eq_false_iff] at h
        exact h.2
      conv_lhs => rw [extractConstsLoop.eq_def]
      simp only [List.cons_append, if_neg hp]
      rw [ih hps (rest) consts (acc ++ [p]) off]
      simp

/-- A wholly const-free token stream is returned unchanged together with
the consts accumulated so far. -/
theorem extractConstsLoop_pass (S : List Token)
    (h : hasConstWord S = false) (consts : List (String × Int))
    (acc : List Token) (off : Int) :
    extractConstsLoop S consts acc off = .ok [] (consts, acc ++ S) := by
  have happ := extractConstsLoop_append S h [] consts acc off
  simpa [extractConstsLoop] using happ

/-- Replacement against a single-entry const table is exactly the claim's
per-token substitution. -/
theorem replace_consts_single (name : String) (v : Int) :
    ∀ toks : List Token,
      replace_consts [(name, v)] toks = toks.map (constReplacer name v) := by
  intro toks
  induction toks with
  | nil => rfl
  | cons tok rest ih =>
      obtain ⟨typ, val, file, row, col⟩ := tok
      cases typ <;> cases val
      · simp only [replace_consts, List.map_cons, constReplacer]
        rw [if_neg (by simp), ih]
      · simp only [replace_consts, List.map_cons, constReplacer]
        rw [if_neg (by simp), ih]
      · simp only [replace_consts, List.map_cons, constReplacer]
        rw [if_neg (by simp), ih]
      · simp only [replace_consts, List.map_cons, constReplacer]
        rw [if_neg (by simp), ih]
      · simp only [replace_consts, List.map_cons, constReplacer]
        rw [if_neg (by simp), ih]
      · -- WORD token with string value: the lookup decides the substitution
        rename_i s
        by_cases hs : name = s
        · subst hs
          simp only [replace_consts, List.map_cons, constReplacer, dictFind,
            if_pos rfl, ih]
          simp
        · have hs2 : ¬(TokVal.str s = TokVal.str name) := by
            intro hc
            exact hs (by injection hc with h; exact h.symm)
          simp only [replace_consts, List.map_cons, constReplacer, dictFind,
            if_neg hs]
          rw [if_neg (by simp [hs2]), ih]

/-- Claim C6 amended: in a token stream `P ++ const NAME body end ++ S`
whose only const block is this one (no other `const` word occurs) and whose
body is a sequence of INT literals and `+`/`-`/`*` words RPN-evaluating to
the single value `v`, const preprocessing removes the block and replaces
every WORD token of text NAME — those after the block, and equally any
before it — by an INT token with value `v` at the reference site's file,
row and column; all other tokens are unchanged.  (The original claim fails
when NAME is redefined by a later block: the final definition wins.) -/
theorem c6_const_subst_amended
    (P S body : List Token) (constTok nameTok endTok : Token)
    (name : String) (v : Int)
    (hP : hasConstWord P = false) (hS : hasConstWord S = false)
    (hconst : constTok.typ = TT.WORD ∧ constTok.value = .str "const")
    (hname : nameTok.typ = TT.WORD ∧ nameTok.value = .str name)
    (hend : endTok.typ = TT.WORD ∧ endTok.value = .str "end")
    (hbody : body.all rpnBodyTok = true)
    (heval : rpnEval body [] = some [v]) :
    preprocess_consts (P ++ constTok :: nameTok :: (body ++ endTok :: S)) =
      .ok [] ((P ++ S).map (constReplacer name v)) := by
  have hb := constBodyLoop_rpn endTok S hend body [] 0 [v] hbody heval
  have hblock :
      extractConstsLoop (constTok :: nameTok :: (body ++ endTok :: S))
          [] P 0 = .ok [] ([(name, v)], P ++ S) := by
    rw [extractConstsLoop.eq_def]
    simp only [if_pos hconst, if_pos hname.1]
    split
    · rename_i stack off' rem heq
      rw [heq] at hb
      injection hb with hd hv
      simp only [Prod.mk.injEq] at hv
      obtain ⟨hstack, hoff, hrem⟩ := hv
      subst hstack
      subst hoff
      have hlen : ¬([v].length > 1) := by simp
      rw [if_neg hlen]
      show extractConstsLoop rem (dictInsert [] (tokValStr nameTok.value) v)
          P 0 = _
      rw [hname.2, hrem]
      exact extractConstsLoop_pass S hS [(name, v)] P 0
    · rename_i d heq
      rw [heq] at hb
      cases hb
    · rename_i d heq
      rw [heq] at hb
      cases hb
  unfold preprocess_consts extract_consts
  rw [extractConstsLoop_append P hP, List.nil_append, hblock]
  simp [replace_consts_single]

/-- The reference token `N` of the const examples, at row 5, column 3. -/
def refN : Token := ⟨TT.WORD, .str "N", "test.collver", 5, 3⟩

/-- Tokens of `const N 1 end  const N 2 end  N`. -/
def c6toks : List Token :=
  [wT "const", wT "N", iT 1, wT "end",
   wT "const", wT "N", iT 2, wT "end", refN]

/-- Claim C6 counterexample: the token list contains the block
`const N 1 end`, whose body RPN-evaluates to exactly the integer 1, yet
const preprocessing replaces the subsequent WORD token `N` by an INT token
with value 2 (the later redefinition wins), not 1 as the claim requires. -/
theorem c6_const_subst_counterexample :
    rpnEval [iT 1] [] = some [1] ∧
      preprocess_consts c6toks =
        .ok [] [⟨TT.INT, .int 2, "test.collver", 5, 3⟩] ∧
      TokVal.int 2 ≠ TokVal.int 1 := by
  refine ⟨by decide, ?_, by decide⟩
  simp only [c6toks, preprocess_consts, extract_consts, wT, iT, refN]
  rw [extractConstsLoop.eq_def]
  simp [constBodyLoop, constLookup, dictFind, popLast?, popLast2?,
    tokValStr, dictInsert]
  rw [extractConstsLoop.eq_def]
  simp [constBodyLoop, constLookup, dictFind, popLast?, popLast2?,
    tokValStr, dictInsert]
  rw [extractConstsLoop.eq_def]
  simp [constBodyLoop, constLookup, dictFind, popLast?, popLast2?,
    tokValStr, dictInsert, replace_consts]
  rw [extractConstsLoop.eq_def]
  simp [replace_consts, dictFind]

/-- Witness for the amended C6 on `const N 2 3 + end  N` (the spec's S5
scenario): `N` evaluates to 5 and the reference is replaced by INT 5 at its
own location. -/
theorem c6_const_subst_amended_witness :
    rpnEval [iT 2, iT 3, wT "+"] [] = some [5] ∧
      ([] ++ [refN]).map (constReplacer "N" 5) =
        [⟨TT.INT, .int 5, "test.collver", 5, 3⟩] ∧
      preprocess_consts
          ([] ++ wT "const" :: wT "N" ::
            ([iT 2, iT 3, wT "+"] ++ wT "end" :: [refN])) =
        .ok [] (([] ++ [refN]).map (constReplacer "N" 5)) :=
  ⟨by decide, by decide,
    c6_const_subst_amended [] [refN] [iT 2, iT 3, wT "+"]
      (wT "const") (wT "N") (wT "end") "N" 5 (by decide) (by decide)
      (by decide) (by decide) (by decide) (by decide) (by decide)⟩

/-! ## Claim C7: unterminated strings -/

/-- The text accumulated by `lex_line`'s in-string mode for the characters
`cs`, when the last character already in the buffer is `prev`: a backslash
followed by `n`/`r` contributes `0A`/`0D` (keeping the backslash already in
the buffer), every other character is copied. -/
def strExt (prev : Char) : List Char → List Char
  | [] => []
  | c :: cs =>
      if prev = '\\' ∧ c = 'n' then '0' :: 'A' :: strExt 'A' cs
      else if prev = '\\' ∧ c = 'r' then '0' :: 'D' :: strExt 'D' cs
      else c :: strExt c cs

/-- While inside a string whose closing quote never arrives, the lexer loop
only ever extends the buffer (by `strExt`) and emits no chunk. -/
theorem lexLineGo_in_str :
    ∀ (cs : List Char) (idx : Nat) (buffer : List Char) (start : Nat)
      (chunks : List (Nat × List Char)) (prev : Char),
      '"' ∉ cs → buffer ≠ [] → buffer.getLast? = some prev →
      lexLineGo idx cs ⟨buffer, start, true, chunks⟩ =
        ⟨buffer ++ strExt prev cs, start, true, chunks⟩ := by
  intro cs
  induction cs with
  | nil =>
      intro idx buffer start chunks prev _ _ _
      simp [lexLineGo, strExt]
  | cons c cs ih =>
      intro idx buffer start chunks prev hq hbne hlast
      have hcq : ¬(c = '"') := by
        intro h
        exact hq (by simp [h])
      have hqs : '"' ∉ cs := fun h => hq (List.mem_cons_of_mem _ h)
      simp only [lexLineGo, hlast]
      rw [if_pos trivial, if_neg hcq]
      by_cases h1 : prev = '\\' ∧ c = 'n'
      · rw [if_pos (by simpa using h1)]
        rw [ih (idx + 1) (buffer ++ ['0', 'A']) start chunks 'A' hqs
          (by simp) (by simp)]
        simp [strExt, h1]
      · rw [if_neg (by simpa using h1)]
        by_cases h2 : prev = '\\' ∧ c = 'r'
        · rw [if_pos (by simpa using h2)]
          rw [ih (idx + 1) (buffer ++ ['0', 'D']) start chunks 'D' hqs
            (by simp) (by simp)]
          simp [strExt, h1, h2]
        · rw [if_neg (by simpa using h2)]
          rw [ih (idx + 1) (buffer ++ [c]) start chunks c hqs
            (by simp) (by simp)]
          simp [strExt, h1, h2]

/-- The in-string accumulation of a nonempty quote-free tail is nonempty
and never ends in a quote. -/
theorem strExt_last (cs : List Char) :
    '"' ∉ cs → cs ≠ [] →
    ∀ prev, ∃ x, (strExt prev cs).getLast? = some x ∧ x ≠ '"' := by
  induction cs with
  | nil => intro _ hne _; cases hne rfl
  | cons c cs ih =>
      intro hq hne prev
      have hcq : c ≠ '"' := fun h => hq (by simp [h])
      have hqs : '"' ∉ cs := fun h => hq (List.mem_cons_of_mem _ h)
      by_cases hcs : cs = []
      · subst hcs
        by_cases h1 : prev = '\\' ∧ c = 'n'
        · exact ⟨'A', by simp [strExt, h1], by decide⟩
        · by_cases h2 : prev = '\\' ∧ c = 'r'
          · exact ⟨'D', by simp [strExt, h1, h2], by decide⟩
          · exact ⟨c, by simp [strExt, h1, h2], hcq⟩
      · by_cases h1 : prev = '\\' ∧ c = 'n'
        · obtain ⟨x, hx, hxq⟩ := ih hqs hcs 'A'
          have hnil : strExt 'A' cs ≠ [] := by
            intro h0
            rw [h0] at hx
            simp at hx
          refine ⟨x, ?_, hxq⟩
          rw [show strExt prev (c :: cs) = ['0', 'A'] ++ strExt 'A' cs by
            simp [strExt, h1]]
          rw [List.getLast?_append_of_ne_nil _ hnil]
          exact hx
        · by_cases h2 : prev = '\\' ∧ c = 'r'
          · obtain ⟨x, hx, hxq⟩ := ih hqs hcs 'D'
            have hnil : strExt 'D' cs ≠ [] := by
              intro h0
              rw [h0] at hx
              simp at hx
            refine ⟨x, ?_, hxq⟩
            rw [show strExt prev (c :: cs) = ['0', 'D'] ++ strExt 'D' cs by
              simp [strExt, h1, h2]]
            rw [List.getLast?_append_of_ne_nil _ hnil]
            exact hx
          · obtain ⟨x, hx, hxq⟩ := ih hqs hcs c
            have hnil : strExt c cs ≠ [] := by
              intro h0
              rw [h0] at hx
              simp at hx
            refine ⟨x, ?_, hxq⟩
            rw [show strExt prev (c :: cs) = [c] ++ strExt c cs by
              simp [strExt, h1, h2]]
            rw [List.getLast?_append_of_ne_nil _ hnil]
            exact hx

/-- A line starting with a quote that is never closed runs the whole lexer
loop in string mode. -/
theorem lexLineGo_open (rest : List Char) (hq : '"' ∉ rest) :
    lexLineGo 0 ('"' :: rest) ⟨[], 0, false, []⟩ =
      ⟨'"' :: strExt '"' rest, 0, true, []⟩ := by
  simp only [lexLineGo]
  norm_num
  rw [lexLineGo_in_str rest 1 ['"'] 0 [] '"' hq (by simp) (by simp)]
  simp

/-- Claim C7 amended: a line opening a string that is not closed before the
end of the line does not make lexing fail (the lexer has no failure path at
all):
`lex_line` emits the text from the opening quote to the end of the line as
a single chunk at the quote's column, and `lex_file` turns it into a WORD
token whose value still contains the opening quote. -/
theorem c7_unterminated_string_amended (fp : String) (rest : List Char)
    (hq : '"' ∉ rest) (hne : rest ≠ []) :
    lex_line ('"' :: rest) = [(0, '"' :: strExt '"' rest)] ∧
      lex_file fp ['"' :: rest] =
        [⟨TT.WORD, .str (String.mk ('"' :: strExt '"' rest)), fp, 0, 0⟩] := by
  obtain ⟨x, hx, hxq⟩ := strExt_last rest hq hne '"'
  have hbody : strExt '"' rest ≠ [] := by
    intro h0
    rw [h0] at hx
    simp at hx
  have hline : lex_line ('"' :: rest) = [(0, '"' :: strExt '"' rest)] := by
    simp [lex_line, lexLineGo_open rest hq]
  refine ⟨hline, ?_⟩
  have hparse : pyParseInt ('"' :: strExt '"' rest) = Option.none := by
    simp [pyParseInt, isDig]
  have hlast2 : ('"' :: strExt '"' rest).getLast? = some x := by
    rw [show ('"' :: strExt '"' rest) = ['"'] ++ strExt '"' rest from rfl]
    rw [List.getLast?_append_of_ne_nil _ hbody]
    exact hx
  have htok : tokenOfChunk fp 0 0 ('"' :: strExt '"' rest) =
      ⟨TT.WORD, .str (String.mk ('"' :: strExt '"' rest)), fp, 0, 0⟩ := by
    simp only [tokenOfChunk, hparse]
    rw [if_neg]
    intro hc
    rw [hlast2] at hc
    exact hxq (Option.some.inj hc.2)
  simp [lex_file, hline, htok]

/-- Claim C7 counterexample: on the line `"abc` (string opened, never
closed) lexing does not fail and emits no diagnostic — the lexer has no
error path — and the unterminated text becomes the WORD token `"abc`
(opening quote included). -/
theorem c7_unterminated_string_counterexample :
    lex_line ['"', 'a', 'b', 'c'] = [(0, ['"', 'a', 'b', 'c'])] ∧
      lex_file "f" [['"', 'a', 'b', 'c']] =
        [⟨TT.WORD, .str (String.mk ['"', 'a', 'b', 'c']), "f", 0, 0⟩] := by
  refine ⟨by decide, by decide⟩

/-- Witness for the amended C7 on the line `"a`. -/
theorem c7_unterminated_string_amended_witness :
    ('"' ∉ (['a'] : List Char)) ∧ (['a'] : List Char) ≠ [] ∧
      lex_line ['"', 'a'] = [(0, ['"', 'a'])] ∧
      lex_file "g" [['"', 'a']] =
        [⟨TT.WORD, .str (String.mk ['"', 'a']), "g", 0, 0⟩] :=
  ⟨by decide, by decide,
    by
      have h :=
        (c7_unterminated_string_amended "g" ['a'] (by decide) (by decide)).1
      simpa [strExt] using h,
    by
      have h :=
        (c7_unterminated_string_amended "g" ['a'] (by decide) (by decide)).2
      simpa [strExt] using h⟩

end Collver
